import Mathlib

/-!
Shallow embedding of the `bintest` crate (src/lib.rs).

The crate spawns `cargo build --message-format json`, parses the JSON
message stream from the child process stdout, and collects every reported
executable artifact into a `BTreeMap<String, Utf8PathBuf>` keyed by the
file stem of the executable path.  Process spawning and pipe reading are
IO; the pure content of `BinTest::new_with_builder` is (a) the assembly of
the `cargo build` command line and (b) the fold over the parsed message
stream that builds the map.  Both are embedded here as pure functions; the
parsed stdout of the child is passed in as a list, one element per line
(`none` standing for a line that failed to decode as a message).  A panic
of the original code is modelled as `Except.error` carrying the panic
message.

The map is modelled as an association list sorted strictly by key, with
keys ordered as in Rust: lexicographically on the character sequence
(for UTF-8 strings the bytewise order of Rust `String` coincides with the
code-point lexicographic order used here).
-/

/-- Model of `camino::Utf8PathBuf`: a UTF-8 path is a string. -/
abbrev Utf8PathBuf := String

/-- Configuration value built by the crate, from `struct BinTestBuilder`. -/
structure BinTestBuilder where
  build_workspace : Bool
  specific_executable : Option String
  quiet : Bool
  deriving DecidableEq

/-- From `BinTestBuilder::new`: the default configuration. -/
def BinTestBuilder.new : BinTestBuilder :=
  { build_workspace := false, specific_executable := none, quiet := false }

/-- Setter `BinTestBuilder::build_workspace` (renamed: the field projection takes the name). -/
def BinTestBuilder.with_build_workspace (self : BinTestBuilder) (workspace : Bool) : BinTestBuilder :=
  { self with build_workspace := workspace }

/-- Setter `BinTestBuilder::build_executable`. -/
def BinTestBuilder.build_executable (self : BinTestBuilder) (executable : String) : BinTestBuilder :=
  { self with specific_executable := some executable }

/-- Setter `BinTestBuilder::quiet` (renamed: the field projection takes the name). -/
def BinTestBuilder.with_quiet (self : BinTestBuilder) (quiet : Bool) : BinTestBuilder :=
  { self with quiet := quiet }

/-- Stdio configuration of one stream of a `std::process::Command`. -/
inductive StdioConfig where
  | piped
  | inherit
  | null
  deriving DecidableEq

/-- Model of `std::process::Command`: the program, its argument list, extra
environment settings, and the three stdio configurations.  `none` for a
stdio field means unconfigured, which `spawn()` resolves to inherited. -/
structure Command where
  program : String
  args : List String
  env : List (String × Option String)
  stdin : Option StdioConfig
  stdout : Option StdioConfig
  stderr : Option StdioConfig
  deriving DecidableEq

/-- Model of `Command::new`: fresh command, no arguments, no environment
changes, stdio unconfigured. -/
def Command.new (program : String) : Command :=
  { program := program, args := [], env := [],
    stdin := none, stdout := none, stderr := none }

/-- Model of `Command::arg`: append one argument. -/
def Command.arg (self : Command) (a : String) : Command :=
  { self with args := self.args ++ [a] }

/-- Model of `Command::args`: append a list of arguments. -/
def Command.append_args (self : Command) (new : List String) : Command :=
  { self with args := self.args ++ new }

/-- Model of `Command::stdout(cfg)`: configure the stdout stream. -/
def Command.set_stdout (self : Command) (cfg : StdioConfig) : Command :=
  { self with stdout := some cfg }

/-- The part of `cargo_metadata::Artifact` read by the crate: the optional
executable path (absent for pure library targets). -/
structure Artifact where
  executable : Option Utf8PathBuf
  deriving DecidableEq

/-- Model of `cargo_metadata::Message`: the crate inspects only the
`CompilerArtifact` variant; every other variant is collapsed into `other`. -/
inductive Message where
  | compilerArtifact (artifact : Artifact)
  | other
  deriving DecidableEq

/-- Split a character list into the substrings between `/` separators. -/
def splitOnSlash : List Char → List (List Char)
  | [] => [[]]
  | c :: rest =>
    if c = '/' then [] :: splitOnSlash rest
    else
      match splitOnSlash rest with
      | [] => [[c]]
      | comp :: comps => (c :: comp) :: comps

/-- Index of the last occurrence of `.` in a character list, if any. -/
def lastDotIdx : List Char → Option Nat
  | [] => none
  | c :: rest =>
    match lastDotIdx rest with
    | some i => some (i + 1)
    | none => if c = '.' then some 0 else none

/-- Model of `Utf8Path::file_name` (the `camino`/`std::path` semantics used
by the crate): the final path component, skipping empty and `.` components;
`none` when the path is empty, a root, or ends in a `..` component. -/
def file_name (p : Utf8PathBuf) : Option String :=
  let comps := (splitOnSlash p.data).filter fun c => !c.isEmpty && c != ['.']
  match comps.getLast? with
  | none => none
  | some c => if c = ['.', '.'] then none else some (String.mk c)

/-- Model of `Utf8Path::file_stem`: the file name up to (excluding) its last
`.`, where a leading `.` does not count as an extension separator; the whole
file name when it contains no such `.`; `none` when there is no file name. -/
def file_stem (p : Utf8PathBuf) : Option String :=
  (file_name p).map fun n =>
    match n.data with
    | [] => n
    | _ :: rest =>
      match lastDotIdx rest with
      | none => n
      | some i => String.mk (n.data.take (i + 1))

/-- Insertion into the model of `BTreeMap<String, Utf8PathBuf>`: an
association list kept sorted strictly by key, comparing keys as Rust `Ord`
on `String` does (lexicographically); inserting an existing key replaces
its value (last write wins). -/
def btreeInsert (k : String) (v : Utf8PathBuf) :
    List (String × Utf8PathBuf) → List (String × Utf8PathBuf)
  | [] => [(k, v)]
  | (k', v') :: rest =>
    if k.data < k'.data then (k, v) :: (k', v') :: rest
    else if k = k' then (k, v) :: rest
    else (k', v') :: btreeInsert k v rest

/-- The finished artifact index, from `struct BinTest`. -/
structure BinTest where
  build_executables : List (String × Utf8PathBuf)
  deriving DecidableEq

/-- Model of `BinTest::list_executables`: iterating the `BTreeMap` yields
its entries in ascending key order; in the model the sorted entry list
itself. -/
def BinTest.list_executables (self : BinTest) : List (String × Utf8PathBuf) :=
  self.build_executables

/-- Model of `BinTest::command`: look the name up in the map; on a miss the
original panics with `no such executable <<name>>` (modelled as an error),
on a hit it returns `Command::new(path)`. -/
def BinTest.command (self : BinTest) (name : String) : Except String Command :=
  match self.build_executables.lookup name with
  | some path => .ok (Command.new path)
  | none => .error ("no such executable <<" ++ name ++ ">>")

/-- The `cargo build` command assembled by `BinTest::new_with_builder`.
`cargoEnv` is the value of the `CARGO` environment variable (the program
falls back to the literal `cargo`); `release` is the compile-time constant
`RELEASE_BUILD`, true exactly when the invoking binary was itself compiled
in release mode. -/
def cargo_build_command (cargoEnv : Option String) (release : Bool)
    (builder : BinTestBuilder) : Command :=
  let cargo_build := Command.new (cargoEnv.getD "cargo")
  let cargo_build :=
    (cargo_build.append_args ["build", "--message-format", "json"]).set_stdout .piped
  let cargo_build := if release then cargo_build.arg "--release" else cargo_build
  let cargo_build :=
    if builder.build_workspace then cargo_build.arg "--workspace" else cargo_build
  let cargo_build :=
    match builder.specific_executable with
    | some executable => cargo_build.append_args ["--bin", executable]
    | none => cargo_build
  let cargo_build := if builder.quiet then cargo_build.arg "--quiet" else cargo_build
  cargo_build

/-- The message loop of `BinTest::new_with_builder`.  `lines` holds the
parse result of each line of the child stdout in order (`none` for a line
`cargo_metadata` could not decode, on which `message.unwrap()` panics).
A `CompilerArtifact` message with an executable path is inserted under the
file stem of that path; `file_stem` returning `none` hits the
`.expect("filename")` panic; every other message is skipped. -/
def process_messages (acc : List (String × Utf8PathBuf)) :
    List (Option Message) → Except String (List (String × Utf8PathBuf))
  | [] => .ok acc
  | none :: _ => .error "called Result::unwrap() on an Err value"
  | some .other :: rest => process_messages acc rest
  | some (.compilerArtifact ⟨none⟩) :: rest => process_messages acc rest
  | some (.compilerArtifact ⟨some executable⟩) :: rest =>
    match file_stem executable with
    | none => .error "filename"
    | some stem => process_messages (btreeInsert stem executable acc) rest

/-- Model of `BinTest::new_with_builder`: the command-line assembly is
`cargo_build_command`; spawning the child and reading its piped stdout is
IO, so the decoded stdout enters as the `lines` parameter, and the index is
the fold of `process_messages` over it starting from the empty map. -/
def new_with_builder (builder : BinTestBuilder) (lines : List (Option Message)) :
    Except String BinTest :=
  (process_messages [] lines).map fun build_executables => { build_executables }

/-- Model of `BinTest::new`: run with the default configuration. -/
def BinTest.new (lines : List (Option Message)) : Except String BinTest :=
  new_with_builder BinTestBuilder.new lines

/-- Model of `BinTestBuilder::build`. -/
def BinTestBuilder.build (self : BinTestBuilder) (lines : List (Option Message)) :
    Except String BinTest :=
  new_with_builder self lines

/-- Every entry of the map after an insertion has the inserted key or was
already present. -/
theorem mem_btreeInsert (k : String) (v : Utf8PathBuf)
    (m : List (String × Utf8PathBuf)) (x : String × Utf8PathBuf)
    (hx : x ∈ btreeInsert k v m) : x.1 = k ∨ x ∈ m := by
  induction m with
  | nil =>
    simp [btreeInsert] at hx
    subst hx
    exact Or.inl rfl
  | cons hd tl ih =>
    obtain ⟨k', v'⟩ := hd
    rw [btreeInsert] at hx
    split_ifs at hx with h1 h2
    · rcases List.mem_cons.mp hx with rfl | h'
      · exact Or.inl rfl
      · exact Or.inr h'
    · rcases List.mem_cons.mp hx with rfl | h'
      · exact Or.inl rfl
      · exact Or.inr (List.mem_cons_of_mem _ h')
    · rcases List.mem_cons.mp hx with rfl | h'
      · exact Or.inr (List.mem_cons_self _ _)
      · rcases ih h' with h | h
        · exact Or.inl h
        · exact Or.inr (List.mem_cons_of_mem _ h)

/-- Comparing key data lexicographically is the strict order on strings. -/
theorem string_lt_of_data_lt {a b : String} (h : a.data < b.data) : a < b :=
  String.lt_iff_toList_lt.mpr h

/-- The map invariant: entries sorted strictly ascending by key. -/
def sortedKeys (m : List (String × Utf8PathBuf)) : Prop :=
  List.Pairwise (fun x y => x.1 < y.1) m

/-- Insertion preserves the sorted-keys invariant of the map. -/
theorem sortedKeys_btreeInsert (k : String) (v : Utf8PathBuf)
    (m : List (String × Utf8PathBuf)) (h : sortedKeys m) :
    sortedKeys (btreeInsert k v m) := by
  induction m with
  | nil => simp [btreeInsert, sortedKeys]
  | cons hd tl ih =>
    obtain ⟨k', v'⟩ := hd
    rw [sortedKeys, List.pairwise_cons] at h
    obtain ⟨hhd, htl⟩ := h
    rw [btreeInsert]
    split_ifs with h1 h2
    · rw [sortedKeys, List.pairwise_cons]
      refine ⟨?_, List.pairwise_cons.mpr ⟨hhd, htl⟩⟩
      intro y hy
      rcases List.mem_cons.mp hy with rfl | hy'
      · exact string_lt_of_data_lt h1
      · exact lt_trans (string_lt_of_data_lt h1) (hhd y hy')
    · subst h2
      rw [sortedKeys, List.pairwise_cons]
      exact ⟨hhd, htl⟩
    · have hk : k' < k := by
        refine string_lt_of_data_lt (lt_of_le_of_ne (le_of_not_lt h1) ?_)
        intro hdata
        exact h2 ((String.toList_inj.mp hdata).symm)
      rw [sortedKeys, List.pairwise_cons]
      refine ⟨?_, ih htl⟩
      intro y hy
      rcases mem_btreeInsert k v tl y hy with hy1 | hy1
      · rw [hy1]; exact hk
      · exact hhd y hy1

/-- The message loop preserves the sorted-keys invariant. -/
theorem sortedKeys_process_messages (lines : List (Option Message)) :
    ∀ acc m, sortedKeys acc → process_messages acc lines = .ok m → sortedKeys m := by
  induction lines with
  | nil =>
    intro acc m h hok
    rw [process_messages] at hok
    cases hok
    exact h
  | cons hd tl ih =>
    intro acc m h hok
    match hd with
    | none => rw [process_messages] at hok; cases hok
    | some .other => rw [process_messages] at hok; exact ih acc m h hok
    | some (.compilerArtifact ⟨none⟩) =>
      rw [process_messages] at hok
      exact ih acc m h hok
    | some (.compilerArtifact ⟨some executable⟩) =>
      rw [process_messages] at hok
      cases hst : file_stem executable with
      | none => rw [hst] at hok; cases hok
      | some stem =>
        rw [hst] at hok
        exact ih _ m (sortedKeys_btreeInsert stem executable acc h) hok

/-- C1: for every configuration with `build_workspace = false` and no target
filter, a stream holding exactly one artifact message with executable path
`/tmp/x/foo` yields an index with the single entry mapping the file stem
`foo` to `/tmp/x/foo`. -/
theorem C1_single_artifact_index (builder : BinTestBuilder)
    (hw : builder.build_workspace = false)
    (hf : builder.specific_executable = none) :
    new_with_builder builder [some (.compilerArtifact ⟨some "/tmp/x/foo"⟩)] =
      .ok { build_executables := [("foo", "/tmp/x/foo")] } := rfl

/-- Witness for C1 at the default configuration. -/
theorem C1_single_artifact_index_witness :
    BinTestBuilder.new.build_workspace = false ∧
    BinTestBuilder.new.specific_executable = none ∧
    new_with_builder BinTestBuilder.new [some (.compilerArtifact ⟨some "/tmp/x/foo"⟩)] =
      .ok { build_executables := [("foo", "/tmp/x/foo")] } :=
  ⟨rfl, rfl, C1_single_artifact_index BinTestBuilder.new rfl rfl⟩

/-- C2: a stream of two artifact messages whose executable paths share one
file stem but differ as paths produces an index with exactly one entry for
that stem, holding the path of the later message (last write wins). -/
theorem C2_last_write_wins (stem : String) (p1 p2 : Utf8PathBuf)
    (h1 : file_stem p1 = some stem) (h2 : file_stem p2 = some stem)
    (hne : p1 ≠ p2) :
    new_with_builder BinTestBuilder.new
      [some (.compilerArtifact ⟨some p1⟩), some (.compilerArtifact ⟨some p2⟩)] =
      .ok { build_executables := [(stem, p2)] } := by
  simp [new_with_builder, process_messages, h1, h2, btreeInsert, Except.map]

/-- Witness for C2 with the stem `foo` reported at two distinct paths. -/
theorem C2_last_write_wins_witness :
    file_stem "/a/foo" = some "foo" ∧ file_stem "/b/foo" = some "foo" ∧
    ("/a/foo" : Utf8PathBuf) ≠ "/b/foo" ∧
    new_with_builder BinTestBuilder.new
      [some (.compilerArtifact ⟨some "/a/foo"⟩), some (.compilerArtifact ⟨some "/b/foo"⟩)] =
      .ok { build_executables := [("foo", "/b/foo")] } :=
  ⟨rfl, rfl, by decide, C2_last_write_wins "foo" "/a/foo" "/b/foo" rfl rfl (by decide)⟩

/-- C4: a line decoding as any message other than a compiler artifact
contributes no entry and does not abort: the run is identical to the run on
the stream with that line removed, so all later lines are still processed. -/
theorem C4_non_artifact_skipped (pre post : List (Option Message))
    (acc : List (String × Utf8PathBuf)) :
    process_messages acc (pre ++ some Message.other :: post) =
      process_messages acc (pre ++ post) := by
  induction pre generalizing acc with
  | nil => simp [process_messages]
  | cons hd tl ih =>
    match hd with
    | none => simp [process_messages]
    | some .other => simp only [List.cons_append, process_messages]; exact ih acc
    | some (.compilerArtifact ⟨none⟩) =>
      simp only [List.cons_append, process_messages]; exact ih acc
    | some (.compilerArtifact ⟨some executable⟩) =>
      cases hst : file_stem executable with
      | none => simp [process_messages, hst]
      | some stem =>
        simp only [List.cons_append, process_messages, hst]
        exact ih _

/-- C5: an artifact message whose executable path is absent (a pure library
target) contributes no entry and does not abort: the run is identical to
the run on the stream with that line removed. -/
theorem C5_artifact_without_executable_skipped (pre post : List (Option Message))
    (acc : List (String × Utf8PathBuf)) :
    process_messages acc (pre ++ some (Message.compilerArtifact ⟨none⟩) :: post) =
      process_messages acc (pre ++ post) := by
  induction pre generalizing acc with
  | nil => simp [process_messages]
  | cons hd tl ih =>
    match hd with
    | none => simp [process_messages]
    | some .other => simp only [List.cons_append, process_messages]; exact ih acc
    | some (.compilerArtifact ⟨none⟩) =>
      simp only [List.cons_append, process_messages]; exact ih acc
    | some (.compilerArtifact ⟨some executable⟩) =>
      cases hst : file_stem executable with
      | none => simp [process_messages, hst]
      | some stem =>
        simp only [List.cons_append, process_messages, hst]
        exact ih _

/-- C6: looking a name up in a finished index either aborts with a message
containing that name verbatim (when the name is absent) or returns a fresh
command seeded with the stored path and no extra arguments, environment or
stdio configuration (when the name is present). -/
theorem C6_command_lookup (bt : BinTest) (name : String) :
    (bt.build_executables.lookup name = none →
      ∃ a b, bt.command name = .error (a ++ name ++ b)) ∧
    ∀ path, bt.build_executables.lookup name = some path →
      bt.command name = .ok { program := path, args := [], env := [],
                              stdin := none, stdout := none, stderr := none } := by
  constructor
  · intro h
    exact ⟨"no such executable <<", ">>", by simp [BinTest.command, h]⟩
  · intro path h
    simp [BinTest.command, h, Command.new]

/-- Witness for C6: a miss on `bar` and a hit on `foo` in a one-entry index. -/
theorem C6_command_lookup_witness :
    (∃ a b, (BinTest.mk [("foo", "/tmp/x/foo")]).command "bar" = .error (a ++ "bar" ++ b)) ∧
    (BinTest.mk [("foo", "/tmp/x/foo")]).command "foo" =
      .ok { program := "/tmp/x/foo", args := [], env := [],
            stdin := none, stdout := none, stderr := none } :=
  ⟨(C6_command_lookup (BinTest.mk [("foo", "/tmp/x/foo")]) "bar").1 rfl,
   (C6_command_lookup (BinTest.mk [("foo", "/tmp/x/foo")]) "foo").2 "/tmp/x/foo" rfl⟩

/-- C7: a stream containing a line that does not decode as a message makes
the run abort with an error instead of returning an index. -/
theorem C7_undecodable_line_aborts (lines : List (Option Message))
    (acc : List (String × Utf8PathBuf)) (h : none ∈ lines) :
    ∃ e, process_messages acc lines = .error e := by
  induction lines generalizing acc with
  | nil => cases h
  | cons hd tl ih =>
    match hd with
    | none => exact ⟨_, rfl⟩
    | some m =>
      have h' : none ∈ tl := by
        rcases List.mem_cons.mp h with h0 | h0
        · cases h0
        · exact h0
      match m with
      | .other => exact ih acc h'
      | .compilerArtifact ⟨none⟩ => exact ih acc h'
      | .compilerArtifact ⟨some executable⟩ =>
        cases hst : file_stem executable with
        | none => exact ⟨"filename", by simp [process_messages, hst]⟩
        | some stem =>
          obtain ⟨e, he⟩ := ih (btreeInsert stem executable acc) h'
          exact ⟨e, by simp only [process_messages, hst]; exact he⟩

/-- Witness for C7: the one-line stream whose line fails to decode. -/
theorem C7_undecodable_line_aborts_witness :
    ∃ e, process_messages [] [none] = .error e :=
  C7_undecodable_line_aborts [none] [] (List.mem_cons_self _ _)

/-- C8: every finished index lists its executables in strictly ascending
key order; the listing is the entry list of the index itself (a finite,
read-only view), so repeated iteration yields the same pairs in the same
order. -/
theorem C8_list_executables_sorted (builder : BinTestBuilder)
    (lines : List (Option Message)) (bt : BinTest)
    (h : new_with_builder builder lines = .ok bt) :
    List.Pairwise (fun x y => x.1 < y.1) bt.list_executables ∧
    bt.list_executables = bt.build_executables := by
  refine ⟨?_, rfl⟩
  cases hp : process_messages [] lines with
  | error e =>
    simp only [new_with_builder, hp, Except.map] at h
    exact Except.noConfusion h
  | ok m =>
    simp only [new_with_builder, hp, Except.map] at h
    injection h with h1
    subst h1
    exact sortedKeys_process_messages lines [] m List.Pairwise.nil hp

/-- Witness for C8: a run reporting `b` before `a` lists them sorted. -/
theorem C8_list_executables_sorted_witness :
    List.Pairwise (fun x y => x.1 < y.1)
      (BinTest.mk [("a", "/t/a"), ("b", "/t/b")]).list_executables ∧
    (BinTest.mk [("a", "/t/a"), ("b", "/t/b")]).list_executables =
      (BinTest.mk [("a", "/t/a"), ("b", "/t/b")]).build_executables :=
  C8_list_executables_sorted BinTestBuilder.new
    [some (.compilerArtifact ⟨some "/t/b"⟩), some (.compilerArtifact ⟨some "/t/a"⟩)]
    (BinTest.mk [("a", "/t/a"), ("b", "/t/b")]) rfl

/-- C9: the child invocation holds exactly the arguments `build
--message-format json`, then `--release` iff the invoking binary was
compiled in release mode, then `--workspace` iff configured, then
`--bin name` iff a target filter is set, then `--quiet` iff configured,
in that order, with stdout piped and stderr and stdin left unconfigured
(inherited), no environment changes, and the program taken from the
`CARGO` variable with fallback `cargo`. -/
theorem C9_cargo_build_args (cargoEnv : Option String) (release : Bool)
    (builder : BinTestBuilder) :
    (cargo_build_command cargoEnv release builder).program = cargoEnv.getD "cargo" ∧
    (cargo_build_command cargoEnv release builder).args =
      ["build", "--message-format", "json"] ++
      (if release then ["--release"] else []) ++
      (if builder.build_workspace then ["--workspace"] else []) ++
      (match builder.specific_executable with
       | some executable => ["--bin", executable]
       | none => []) ++
      (if builder.quiet then ["--quiet"] else []) ∧
    (cargo_build_command cargoEnv release builder).stdout = some .piped ∧
    (cargo_build_command cargoEnv release builder).stderr = none ∧
    (cargo_build_command cargoEnv release builder).stdin = none ∧
    (cargo_build_command cargoEnv release builder).env = [] := by
  obtain ⟨w, s, q⟩ := builder
  cases release <;> cases w <;> cases s <;> cases q <;>
    simp [cargo_build_command, Command.new, Command.arg, Command.append_args,
      Command.set_stdout]

/-- C10: an artifact message whose executable path is present but has no
file stem makes the run abort with the panic message `filename` instead of
skipping the message or inserting an entry. -/
theorem C10_missing_file_stem_aborts (p : Utf8PathBuf)
    (rest : List (Option Message)) (acc : List (String × Utf8PathBuf))
    (h : file_stem p = none) :
    process_messages acc (some (.compilerArtifact ⟨some p⟩) :: rest) =
      .error "filename" := by
  simp [process_messages, h]

/-- Witness for C10: the root path has no file stem and aborts the run. -/
theorem C10_missing_file_stem_aborts_witness :
    file_stem "/" = none ∧
    process_messages [] [some (.compilerArtifact ⟨some "/"⟩)] = .error "filename" :=
  ⟨rfl, C10_missing_file_stem_aborts "/" [] [] rfl⟩
